import Mathlib

/-!
# Verification of the Vilik OS formatted-output engine

Shallow embedding of `kernel/src/lib/printk.c` (the printf-style format
engine) and of `hex_dump` (the hex+ASCII memory inspector), together with
theorems settling the specification claims.

Modelling conventions:
* Machine integers are `Nat`/`Int` with explicit reductions modulo `2^32`
  (`unsigned int`) and `2^64` (`unsigned long` on AArch64).
* The byte sink (`kputc`/`uart_putc`) is pure: each emission appends one
  `Char` (a byte) to the output list, in order.
* Variadic arguments follow the AArch64 AAPCS: every integer or pointer
  argument occupies one 64-bit register slot (`Arg.anum`); `va_arg` with a
  32-bit type reads the low 32 bits of the slot.  String arguments carry
  their contents (`Arg.astr`), `none` modelling a null `char *`.
* The format string is a memory `Nat → Char` (position `↦` byte), so that
  scanning past the terminating `'\0'` — which the C code can do — is
  representable.  A proper C string is embedded by `cString`, which places
  `'\0'` at and beyond the end of the character list.
* The C loops are modelled with explicit fuel; the wrappers supply fuel
  that provably suffices for terminated inputs.
-/

/-- The modulus of `unsigned int`, `2^32`. -/
def UINT32 : Nat := 4294967296

/-- The modulus of `unsigned long` on AArch64, `2^64`. -/
def UINT64 : Nat := 18446744073709551616

/-- Read a 64-bit register slot as a C `unsigned int` (low 32 bits). -/
def asUInt (v : Nat) : Nat := v % UINT32

/-- Read a 64-bit register slot as a C `unsigned long`. -/
def asULong (v : Nat) : Nat := v % UINT64

/-- Read a 64-bit register slot as a C `int` (low 32 bits, signed). -/
def asInt32 (v : Nat) : Int :=
  if v % UINT32 < 2147483648 then (v % UINT32 : Int) else (v % UINT32 : Int) - (UINT32 : Int)

/-- Read a 64-bit register slot as a C `long` (signed 64-bit). -/
def asInt64 (v : Nat) : Int :=
  if v % UINT64 < 9223372036854775808 then (v % UINT64 : Int) else (v % UINT64 : Int) - (UINT64 : Int)

/-- The C cast `(unsigned long)num` of a `long num`. -/
def ulongOfLong (num : Int) : Nat := (num % (UINT64 : Int)).toNat

/-- C unary minus on an `unsigned long` value. -/
def ulongNeg (x : Nat) : Nat := (UINT64 - x % UINT64) % UINT64

/-- The record `format_spec_t` from printk.c.  Field defaults give `{ 0 }`. -/
structure FormatSpec where
  pad_with_zeros : Bool := false
  left_align : Bool := false
  show_sign : Bool := false
  alt_form : Bool := false
  width : Nat := 0
  precision : Nat := 0
  has_precision : Bool := false
  length_modifier : Char := Char.ofNat 0
  type : Char := Char.ofNat 0
deriving DecidableEq

/-- Decimal digit character: C `'0' + d`. -/
def decDigitC (d : Nat) : Char := Char.ofNat (48 + d)

/-- Hex digit character as computed in `print_hex` (printk.c line 93). -/
def hexConv (capital : Bool) (d : Nat) : Char :=
  if d < 10 then Char.ofNat (48 + d)
  else Char.ofNat ((if capital then 65 else 97) + (d - 10))

/-- The digit-generation loop shared by the converters: repeatedly take
`n % base` and divide, producing the least-significant digit first (the C
buffer contents before the reversed emission).  `fuel ≥ n` suffices. -/
def revDigits (conv : Nat → Char) (base : Nat) : Nat → Nat → List Char
  | _, 0 => []
  | 0, _ + 1 => []
  | fuel + 1, n + 1 => conv ((n + 1) % base) :: revDigits conv base fuel ((n + 1) / base)

/-- printk.c line 21: `(num < 0) ? -(unsigned long)num : (unsigned long)num`. -/
def magnitude64 (num : Int) : Nat :=
  if num < 0 then ulongNeg (ulongOfLong num) else ulongOfLong num

/-- The function `print_number` from printk.c (lines 20–56): signed decimal
conversion.
Returns the emitted character sequence. -/
def print_number (num : Int) (spec : FormatSpec) : List Char :=
  let unum : Nat := magnitude64 num
  let buffer : List Char := if unum = 0 then ['0'] else revDigits decDigitC 10 unum unum
  let negative : Bool := decide (num < 0)
  let digits : Nat := buffer.length
  let pad : Nat :=
    if spec.width > digits + (if negative then 1 else 0)
    then spec.width - digits - (if negative then 1 else 0) else 0
  let padder : Char := if spec.pad_with_zeros then '0' else ' '
  (if negative && spec.pad_with_zeros then ['-'] else []) ++
  List.replicate pad padder ++
  (if negative && !spec.pad_with_zeros then ['-'] else []) ++
  buffer.reverse

/-- The function `print_unsigned` from printk.c (lines 58–82). -/
def print_unsigned (num : Nat) (spec : FormatSpec) : List Char :=
  let buffer : List Char := if num = 0 then ['0'] else revDigits decDigitC 10 num num
  let digits : Nat := buffer.length
  let pad : Nat := if spec.width > digits then spec.width - digits else 0
  let padder : Char := if spec.pad_with_zeros then '0' else ' '
  List.replicate pad padder ++ buffer.reverse

/-- The function `print_hex` from printk.c (lines 84–110). -/
def print_hex (num : Nat) (capital : Bool) (spec : FormatSpec) : List Char :=
  let buffer : List Char := if num = 0 then ['0'] else revDigits (hexConv capital) 16 num num
  let digits : Nat := buffer.length
  let pad : Nat := if spec.width > digits then spec.width - digits else 0
  let padder : Char := if spec.pad_with_zeros then '0' else ' '
  List.replicate pad padder ++ buffer.reverse

/-- One variadic argument slot.  `anum` is a 64-bit general-purpose register
slot holding an integer or pointer bit pattern; `astr` is a `char *`
argument, `none` modelling a null pointer. -/
inductive Arg where
  | anum (v : Nat)
  | astr (s : Option (List Char))
deriving DecidableEq

/-- The `switch (spec.type)` dispatcher of `printk` (printk.c lines 166–251):
given the parsed spec and the remaining variadic arguments, produce the
characters emitted for this directive and the remaining arguments.
`none` models a `va_arg` type mismatch (undefined behaviour in C). -/
def dispatch (spec : FormatSpec) (args : List Arg) : Option (List Char × List Arg) :=
  match spec.type with
  | '%' => some (['%'], args)
  | 'c' =>
    match args with
    | Arg.anum v :: rest => some ([Char.ofNat (v % 256)], rest)
    | _ => none
  | 's' =>
    match args with
    | Arg.astr (some s) :: rest => some (s, rest)
    | Arg.astr none :: rest => some (['(', 'n', 'u', 'l', 'l', ')'], rest)
    | _ => none
  | 'd' =>
    match args with
    | Arg.anum v :: rest =>
      some (print_number (if spec.length_modifier = 'l' then asInt64 v else asInt32 v) spec, rest)
    | _ => none
  | 'u' =>
    match args with
    | Arg.anum v :: rest =>
      some (print_unsigned (if spec.length_modifier = 'l' then asULong v else asUInt v) spec, rest)
    | _ => none
  | 'p' =>
    match args with
    | Arg.anum v :: rest =>
      if asULong v = 0 then some (['(', 'n', 'i', 'l', ')'], rest)
      else some ('0' :: 'x' ::
        print_hex (asULong v) false { spec with width := 16, pad_with_zeros := true }, rest)
    | _ => none
  | 'x' =>
    match args with
    | Arg.anum v :: rest =>
      some (print_hex (if spec.length_modifier = 'l' then asULong v else asUInt v) false spec, rest)
    | _ => none
  | 'X' =>
    match args with
    | Arg.anum v :: rest =>
      some (print_hex (if spec.length_modifier = 'l' then asULong v else asUInt v) true spec, rest)
    | _ => none
  | _ => some ([], args)

/-- Flag characters accepted by the parser (printk.c line 118). -/
def isFlag (c : Char) : Bool :=
  c = '-' || c = '+' || c = ' ' || c = '#' || c = '0'

/-- C test `c >= '0' && c <= '9'`. -/
def isDigitCh (c : Char) : Bool := 48 ≤ c.toNat && c.toNat ≤ 57

/-- The flag-parsing loop (printk.c lines 118–128), with fuel. -/
def parseFlags (mem : Nat → Char) : Nat → Nat → FormatSpec → FormatSpec × Nat
  | 0, p, spec => (spec, p)
  | fuel + 1, p, spec =>
    if isFlag (mem p) then
      let s1 := if mem p = '-' then { spec with left_align := true } else spec
      let s2 := if mem p = '0' then { s1 with pad_with_zeros := true } else s1
      let s3 := if mem p = '+' then { s2 with show_sign := true } else s2
      let s4 := if mem p = '#' then { s3 with alt_form := true } else s3
      parseFlags mem fuel (p + 1) s4
    else (spec, p)

/-- The digit-accumulation loop used for width and precision
(printk.c lines 131–134 and 140–143), with fuel. -/
def parseDigits (mem : Nat → Char) : Nat → Nat → Nat → Nat × Nat
  | 0, p, acc => (acc, p)
  | fuel + 1, p, acc =>
    if isDigitCh (mem p) then parseDigits mem fuel (p + 1) (acc * 10 + ((mem p).toNat - 48))
    else (acc, p)

/-- The function `parse_format_spec` (printk.c lines 112–156): parse one directive
starting at position `p` (which holds `'%'`); return the spec and the
position one past the type character. -/
def parse_format_spec (mem : Nat → Char) (fuel : Nat) (p0 : Nat) : FormatSpec × Nat :=
  let p1 := p0 + 1
  let fs := parseFlags mem fuel p1 {}
  let ws := parseDigits mem fuel fs.2 0
  let spec1 : FormatSpec := { fs.1 with width := ws.1 }
  let ps :=
    if mem ws.2 = '.' then
      let pr := parseDigits mem fuel (ws.2 + 1) 0
      (({ spec1 with has_precision := true, precision := pr.1 } : FormatSpec), pr.2)
    else (spec1, ws.2)
  let ls :=
    if mem ps.2 = 'l' ∨ mem ps.2 = 'h' then
      (({ ps.1 with length_modifier := mem ps.2 } : FormatSpec), ps.2 + 1)
    else (ps.1, ps.2)
  (({ ls.1 with type := mem ls.2 } : FormatSpec), ls.2 + 1)

/-- The main scanning loop of `printk` (printk.c lines 162–255) over a
format memory, with fuel; `none` means the fuel ran out. -/
def printkLoop (mem : Nat → Char) : Nat → Nat → List Arg → Option (List Char)
  | 0, _, _ => none
  | fuel + 1, p, args =>
    if mem p = Char.ofNat 0 then some []
    else if mem p = '%' then
      let sp := parse_format_spec mem (fuel + 1) p
      match dispatch sp.1 args with
      | some (out, args') =>
        match printkLoop mem fuel sp.2 args' with
        | some rest => some (out ++ rest)
        | none => none
      | none => none
    else
      match printkLoop mem fuel (p + 1) args with
      | some rest => some (mem p :: rest)
      | none => none

/-- Embed a C string: the listed characters, then `'\0'` at and beyond
the end. -/
def cString (l : List Char) : Nat → Char := fun i => l.getD i (Char.ofNat 0)

/-- The function `printk` on a terminated format string and an argument list. -/
def printk (fmt : List Char) (args : List Arg) : Option (List Char) :=
  printkLoop (cString fmt) (fmt.length + 1) 0 args

/-- A sequence of `printk` calls against the single shared byte sink:
the emitted bytes are concatenated in call order. -/
def kernelRun : List (List Char × List Arg) → Option (List Char)
  | [] => some []
  | (f, a) :: rest =>
    match printk f a, kernelRun rest with
    | some out, some outs => some (out ++ outs)
    | _, _ => none

/-- One hex cell of a dump row (hex_dump, part_002 lines 14–24): `".. "` for
bytes outside the requested range, otherwise the two-digit hex value and a
space, emitted through `printk`.  `memb` is the byte memory.  The range
test `byte_addr >= num_addr + len` adds two `unsigned long` values, so the
sum wraps modulo `2^64`. -/
def hexCell (memb : Nat → Nat) (numAddr len byteAddr : Nat) : Option (List Char) :=
  if byteAddr < numAddr ∨ (numAddr + len) % UINT64 ≤ byteAddr then
    printk (".. ".toList) []
  else do
    let byte := memb byteAddr % 256
    let lead ← if byte < 16 then printk ("0".toList) [] else pure []
    let hx ← printk ("%x ".toList) [Arg.anum byte]
    pure (lead ++ hx)

/-- One ASCII cell of a dump row (hex_dump, part_002 lines 29–40), with the
same mod-`2^64` wrap of `num_addr + len` in the range test as `hexCell`. -/
def asciiCell (memb : Nat → Nat) (numAddr len byteAddr : Nat) : Option (List Char) :=
  if byteAddr < numAddr ∨ (numAddr + len) % UINT64 ≤ byteAddr then
    printk (".".toList) []
  else
    let byte := memb byteAddr % 256
    if 31 < byte ∧ byte < 127 then printk ("%c".toList) [Arg.anum byte]
    else printk (".".toList) []

/-- The 16-column inner loop of a dump row, generic in the cell renderer. -/
def cellLoop (cell : Nat → Option (List Char)) (rowAddr : Nat) : Nat → Nat → Option (List Char)
  | _, 0 => some []
  | col, remaining + 1 => do
    let c ← cell (rowAddr + col)
    let rest ← cellLoop cell rowAddr (col + 1) remaining
    pure (c ++ rest)

/-- One full row of `hex_dump` (part_002 lines 11–43): address prefix, 16
hex cells, a three-space gap, 16 ASCII cells, newline. -/
def hexRow (memb : Nat → Nat) (numAddr len rowAddr : Nat) : Option (List Char) := do
  let pfx ← printk ("0x%x:    ".toList) [Arg.anum rowAddr]
  let hx ← cellLoop (hexCell memb numAddr len) rowAddr 0 16
  let gap ← printk ("   ".toList) []
  let asc ← cellLoop (asciiCell memb numAddr len) rowAddr 0 16
  let nl ← printk ("\n".toList) []
  pure (pfx ++ hx ++ gap ++ asc ++ nl)

/-- The row loop of `hex_dump` (part_002 line 10), with fuel.  The guard
`row_addr < num_addr + len` and the increment `row_addr += 16` are
`unsigned long` arithmetic, so both wrap modulo `2^64`; when the end
address wraps the C loop runs an enormous number of iterations (or none),
and the model answers `none` once the fuel is exhausted. -/
def hexDumpLoop (memb : Nat → Nat) (numAddr len : Nat) : Nat → Nat → Option (List Char)
  | 0, _ => none
  | fuel + 1, rowAddr =>
    if rowAddr < (numAddr + len) % UINT64 then do
      let row ← hexRow memb numAddr len rowAddr
      let rest ← hexDumpLoop memb numAddr len fuel ((rowAddr + 16) % UINT64)
      pure (row ++ rest)
    else some []

/-- The function `hex_dump` (part_002 lines 4–45): `aligned_addr = num_addr & ~0xF`,
written `addr / 16 * 16`.  The fuel `len + 16` strictly exceeds the number
of rows whenever `num_addr + len` does not wrap modulo `2^64`; in the wrap
cases the C loop overruns (or exits at once) and the model yields `none`
(or `some []`). -/
def hex_dump (memb : Nat → Nat) (addr len : Nat) : Option (List Char) :=
  hexDumpLoop memb addr len (len + 16) (addr / 16 * 16)

/-- The lowercase hexadecimal alphabet. -/
def hexLowerChars : List Char := ("0123456789abcdef").toList

/-- The uppercase hexadecimal alphabet. -/
def hexUpperChars : List Char := ("0123456789ABCDEF").toList

/-- Numeric value denoted by one hexadecimal digit character. -/
def hexCharVal (c : Char) : Nat :=
  if 48 ≤ c.toNat ∧ c.toNat ≤ 57 then c.toNat - 48
  else if 97 ≤ c.toNat ∧ c.toNat ≤ 102 then c.toNat - 87
  else if 65 ≤ c.toNat ∧ c.toNat ≤ 70 then c.toNat - 55
  else 0

/-- Numeric value denoted by a big-endian string of hex digit characters. -/
def hexListVal (s : List Char) : Nat := s.foldl (fun a c => a * 16 + hexCharVal c) 0

/-! ## Helper lemmas -/

/-- The flag loop does not move when the current character is not a flag. -/
theorem parseFlags_stop (mem : Nat → Char) (fuel p : Nat) (spec : FormatSpec)
    (h : isFlag (mem p) = false) : parseFlags mem fuel p spec = (spec, p) := by
  cases fuel <;> simp [parseFlags, h]

/-- The digit loop does not move when the current character is not a digit. -/
theorem parseDigits_stop (mem : Nat → Char) (fuel p acc : Nat)
    (h : isDigitCh (mem p) = false) : parseDigits mem fuel p acc = (acc, p) := by
  cases fuel <;> simp [parseDigits, h]

theorem hexCharVal_hexConv_false (d : Nat) (hd : d < 16) : hexCharVal (hexConv false d) = d := by
  interval_cases d <;> decide

theorem hexConv_false_mem (d : Nat) (hd : d < 16) : hexConv false d ∈ hexLowerChars := by
  interval_cases d <;> decide

theorem hexConv_true_mem (d : Nat) (hd : d < 16) : hexConv true d ∈ hexUpperChars := by
  interval_cases d <;> decide

/-- Digit count bound: with enough fuel, a value below `16^k` yields at most
`k` hex digits. -/
theorem revDigits_hex_length_le (conv : Nat → Char) :
    ∀ (fuel k n : Nat), n ≤ fuel → n < 16 ^ k → (revDigits conv 16 fuel n).length ≤ k := by
  intro fuel
  induction fuel with
  | zero =>
    intro k n hn _
    interval_cases n
    simp [revDigits]
  | succ f ih =>
    intro k n hn hk
    match n with
    | 0 => simp [revDigits]
    | m + 1 =>
      match k with
      | 0 => omega
      | j + 1 =>
        simp only [revDigits, List.length_cons]
        have hdiv : (m + 1) / 16 ≤ f := by
          have := Nat.div_lt_self (Nat.succ_pos m) (by norm_num : 1 < 16)
          omega
        have hlt : (m + 1) / 16 < 16 ^ j := by
          rw [Nat.div_lt_iff_lt_mul (by norm_num : 0 < 16)]
          calc m + 1 < 16 ^ (j + 1) := hk
            _ = 16 ^ j * 16 := by ring
        have := ih j ((m + 1) / 16) hdiv hlt
        omega

/-- Every character produced by the lowercase hex digit loop is a lowercase
hex digit. -/
theorem revDigits_hex_mem_lower :
    ∀ (fuel n : Nat) (c : Char), c ∈ revDigits (hexConv false) 16 fuel n →
      c ∈ hexLowerChars := by
  intro fuel
  induction fuel with
  | zero => intro n c hc; cases n <;> simp [revDigits] at hc
  | succ f ih =>
    intro n c hc
    match n with
    | 0 => simp [revDigits] at hc
    | m + 1 =>
      simp only [revDigits, List.mem_cons] at hc
      rcases hc with h | h
      · subst h
        exact hexConv_false_mem _ (Nat.mod_lt _ (by norm_num))
      · exact ih _ _ h

/-- Value recovery: folding the hex digit characters back (least-significant
digit outermost) returns the converted value. -/
theorem revDigits_hex_val :
    ∀ (fuel n : Nat), n ≤ fuel →
      List.foldr (fun c a => a * 16 + hexCharVal c) 0 (revDigits (hexConv false) 16 fuel n) = n := by
  intro fuel
  induction fuel with
  | zero =>
    intro n hn
    interval_cases n
    simp [revDigits]
  | succ f ih =>
    intro n hn
    match n with
    | 0 => simp [revDigits]
    | m + 1 =>
      have hdiv : (m + 1) / 16 ≤ f := by
        have := Nat.div_lt_self (Nat.succ_pos m) (by norm_num : 1 < 16)
        omega
      simp only [revDigits, List.foldr_cons]
      rw [ih _ hdiv, hexCharVal_hexConv_false _ (Nat.mod_lt _ (by norm_num))]
      omega

/-- Leading `'0'` characters do not change the big-endian hex value. -/
theorem hexListVal_zeros (k : Nat) (t : List Char) :
    hexListVal (List.replicate k '0' ++ t) = hexListVal t := by
  induction k with
  | zero => simp
  | succ j ih => simpa [hexListVal, List.replicate_succ] using ih

/-- The digit loop yields at least one digit on a nonzero input. -/
theorem revDigits_ne_nil (conv : Nat → Char) (base n : Nat) (hn : n ≠ 0) :
    revDigits conv base n n ≠ [] := by
  match n with
  | 0 => omega
  | m + 1 => simp [revDigits]

/-- Structure of the hex converter under forced width 16 and zero padding
(the `%p` configuration): exactly 16 characters, all lowercase hex digits,
denoting the converted value. -/
theorem print_hex_forced16 (n : Nat) (h0 : n ≠ 0) (h64 : n < UINT64) (spec : FormatSpec)
    (hw : spec.width = 16) (hz : spec.pad_with_zeros = true) :
    (print_hex n false spec).length = 16
    ∧ (∀ c ∈ print_hex n false spec, c ∈ hexLowerChars)
    ∧ hexListVal (print_hex n false spec) = n := by
  have h16 : (16 : Nat) ^ 16 = UINT64 := by norm_num [UINT64]
  have hle : (revDigits (hexConv false) 16 n n).length ≤ 16 :=
    revDigits_hex_length_le _ n 16 n le_rfl (by omega)
  have hpos : 0 < (revDigits (hexConv false) 16 n n).length :=
    List.length_pos.mpr (revDigits_ne_nil _ _ _ h0)
  simp only [print_hex, if_neg h0, hw, hz, if_true, gt_iff_lt]
  refine ⟨?_, ?_, ?_⟩
  · simp only [List.length_append, List.length_replicate, List.length_reverse]
    split <;> omega
  · intro c hc
    rcases List.mem_append.mp hc with h | h
    · have := List.eq_of_mem_replicate h
      subst this
      decide
    · exact revDigits_hex_mem_lower _ _ _ (List.mem_reverse.mp h)
  · rw [show (if 16 > (revDigits (hexConv false) 16 n n).length
        then 16 - (revDigits (hexConv false) 16 n n).length else 0) =
        16 - (revDigits (hexConv false) 16 n n).length by split <;> omega]
    rw [hexListVal_zeros]
    unfold hexListVal
    rw [List.foldl_reverse]
    exact revDigits_hex_val n n le_rfl

/-! ## Claims -/

/-- C2: the signed decimal converter computes the magnitude of its argument
in the unsigned 64-bit domain, so it is exact on every representable
64-bit `long`, including the most negative one; formatting that value with
`%ld` prints a leading `-` and the exact digit string. -/
theorem claim_C2 :
    (∀ num : Int, -(2 ^ 63) ≤ num → num < 2 ^ 63 → magnitude64 num = num.natAbs)
    ∧ printk ("%ld".toList) [Arg.anum (2 ^ 63)] =
        some ("-9223372036854775808".toList) := by
  constructor
  · intro num h1 h2
    unfold magnitude64 ulongNeg ulongOfLong UINT64
    split <;> omega
  · decide

/-- C2 witness: the general magnitude statement applied to the most
negative 64-bit integer. -/
theorem claim_C2_witness :
    magnitude64 (-9223372036854775808) = 9223372036854775808 := by
  have h := claim_C2.1 (-9223372036854775808) (by decide) (by decide)
  rw [h]
  decide

/-- C5: a directive whose type is none of `%`, `c`, `s`, `d`, `u`, `x`,
`X`, `p` emits nothing and consumes no argument, and later directives
still consume their arguments in order (here `%d` after the unknown
`%q` still receives `7`). -/
theorem claim_C5 :
    (∀ (spec : FormatSpec) (args : List Arg),
        spec.type ∉ (['%', 'c', 's', 'd', 'u', 'x', 'X', 'p'] : List Char) →
        dispatch spec args = some ([], args))
    ∧ printk ("a%qb%d".toList) [Arg.anum 7] = some ("ab7".toList) := by
  constructor
  · intro spec args h
    unfold dispatch
    split <;> simp_all
  · decide

/-- C5 witness: the no-op branch at the concrete unknown type `q`. -/
theorem claim_C5_witness :
    dispatch { type := 'q' } [Arg.anum 3] = some ([], [Arg.anum 3]) :=
  claim_C5.1 { type := 'q' } [Arg.anum 3] (by decide)

/-- C6: formatting is deterministic and stateless — running the engine
twice on the same template and arguments, back to back against the shared
byte sink, emits the same byte sequence twice. -/
theorem claim_C6 :
    ∀ (f : List Char) (a : List Arg) (out : List Char),
      printk f a = some out → kernelRun [(f, a), (f, a)] = some (out ++ out) := by
  intro f a out h
  simp [kernelRun, h]

/-- C6 witness: two identical calls on a concrete template. -/
theorem claim_C6_witness :
    kernelRun [(("x=%d".toList), [Arg.anum 7]), (("x=%d".toList), [Arg.anum 7])] =
      some ("x=7x=7".toList) := by
  have h : printk ("x=%d".toList) [Arg.anum 7] = some ("x=7".toList) := by decide
  rw [claim_C6 _ _ _ h]
  decide

/-- C7: a `%s` directive with a null pointer emits exactly `(null)`; with a
non-null pointer it emits the string's bytes in order. -/
theorem claim_C7 :
    ∀ (spec : FormatSpec) (args : List Arg) (s : List Char), spec.type = 's' →
      dispatch spec (Arg.astr none :: args) = some (['(', 'n', 'u', 'l', 'l', ')'], args)
      ∧ dispatch spec (Arg.astr (some s) :: args) = some (s, args) := by
  intro spec args s h
  constructor <;> simp [dispatch, h]

/-- C7 witness: the two `%s` branches at concrete arguments. -/
theorem claim_C7_witness :
    dispatch { type := 's' } [Arg.astr none] = some (['(', 'n', 'u', 'l', 'l', ')'], [])
    ∧ dispatch { type := 's' } [Arg.astr (some ('h' :: 'i' :: []))] =
        some ('h' :: 'i' :: [], []) :=
  claim_C7 { type := 's' } [] ('h' :: 'i' :: []) rfl

/-- C8: hex conversion uses lowercase digits for `x` and uppercase for `X`,
and pads to the field width: `0xFF` renders as `ff` under `%x`, `FF` under
`%X`, and `00ff` under `%04x`. -/
theorem claim_C8 :
    (∀ d : Nat, d < 16 → hexConv false d ∈ hexLowerChars ∧ hexConv true d ∈ hexUpperChars)
    ∧ printk ("%x".toList) [Arg.anum 255] = some ("ff".toList)
    ∧ printk ("%X".toList) [Arg.anum 255] = some ("FF".toList)
    ∧ printk ("%04x".toList) [Arg.anum 255] = some ("00ff".toList) := by
  refine ⟨fun d hd => ⟨hexConv_false_mem d hd, hexConv_true_mem d hd⟩, by decide, by decide, by decide⟩

/-- C8 witness: the digit-alphabet statement at digit 10. -/
theorem claim_C8_witness :
    10 < 16 ∧ (hexConv false 10 ∈ hexLowerChars ∧ hexConv true 10 ∈ hexUpperChars) :=
  ⟨by decide, claim_C8.1 10 (by decide)⟩

/-- C10: a parsed `h` length modifier is recorded but has no effect on
`d`, `u`, `x`, `X` dispatch — the argument consumed and the conversion
performed are those of the unmodified directive. -/
theorem claim_C10 :
    parse_format_spec (cString ("%hd".toList)) 4 0 =
      ({ length_modifier := 'h', type := 'd' }, 3)
    ∧ (∀ (spec : FormatSpec) (args : List Arg),
        spec.type ∈ (['d', 'u', 'x', 'X'] : List Char) →
        dispatch { spec with length_modifier := 'h' } args =
          dispatch { spec with length_modifier := Char.ofNat 0 } args) := by
  constructor
  · decide
  · intro spec args h
    obtain ⟨pz, la, ss, af, w, pr, hp, lm, ty⟩ := spec
    simp only [List.mem_cons, List.not_mem_nil, or_false] at h
    rcases h with h | h | h | h <;> subst h <;>
      rcases args with _ | ⟨v | s, rest⟩ <;>
      simp [dispatch, print_number, print_unsigned, print_hex]

/-- C10 witness: `%hd` and `%d` dispatch identically on a concrete slot. -/
theorem claim_C10_witness :
    dispatch { length_modifier := 'h', type := 'd' } [Arg.anum 3] =
      dispatch { type := 'd' } [Arg.anum 3] :=
  claim_C10.2 { type := 'd' } [Arg.anum 3] (by decide)

/-- C9: if the template ends inside a directive (terminator right after
`%`), the parser records the terminator as the directive type and returns
a scan position one past the terminator; the main loop therefore reads
template memory beyond the string's end before deciding whether to stop —
two memories that agree up to and including the terminator can produce
different output. -/
theorem claim_C9 :
    (∀ (mem : Nat → Char) (fuel p : Nat), mem (p + 1) = Char.ofNat 0 →
        parse_format_spec mem fuel p = ({ type := Char.ofNat 0 }, p + 2))
    ∧ (cString ("A%".toList) 2 = Char.ofNat 0
       ∧ (fun i => if i = 3 then 'B' else cString ("A%".toList) i) 2 = Char.ofNat 0
       ∧ printkLoop (cString ("A%".toList)) 5 0 [] = some ['A']
       ∧ printkLoop (fun i => if i = 3 then 'B' else cString ("A%".toList) i) 5 0 [] =
           some ['A', 'B']) := by
  constructor
  · intro mem fuel p h
    have hflag : isFlag (mem (p + 1)) = false := by rw [h]; decide
    have hdig : isDigitCh (mem (p + 1)) = false := by rw [h]; decide
    have hdot : ¬ mem (p + 1) = '.' := by rw [h]; decide
    have hlh : ¬ (mem (p + 1) = 'l' ∨ mem (p + 1) = 'h') := by rw [h]; decide
    simp [parse_format_spec, parseFlags_stop _ _ _ _ hflag,
      parseDigits_stop _ _ _ _ hdig, hdot, hlh, h]
  · refine ⟨by decide, by decide, by decide, by decide⟩

/-- C9 witness: the parse statement applied to the one-character template
`%`, whose terminator sits at position 1. -/
theorem claim_C9_witness :
    cString ("%".toList) 1 = Char.ofNat 0
    ∧ parse_format_spec (cString ("%".toList)) 2 0 = ({ type := Char.ofNat 0 }, 2) :=
  ⟨by decide, claim_C9.1 (cString ("%".toList)) 2 0 (by decide)⟩

/-- C1: for a negative value, the signed decimal converter emits
sign-then-zeros-then-digits under zero padding and
spaces-then-sign-then-digits under space padding, field width counting the
sign; in particular `%08d` of `-42` is `-0000042` and `%8d` of `-42` is
`     -42`. -/
theorem claim_C1 :
    (∀ (num : Int) (spec : FormatSpec), num < 0 →
        print_number num spec =
          (let buffer : List Char :=
            if magnitude64 num = 0 then ['0']
            else revDigits decDigitC 10 (magnitude64 num) (magnitude64 num)
          let pad : Nat :=
            if spec.width > buffer.length + 1 then spec.width - buffer.length - 1 else 0
          if spec.pad_with_zeros then '-' :: (List.replicate pad '0' ++ buffer.reverse)
          else List.replicate pad ' ' ++ ('-' :: buffer.reverse)))
    ∧ printk ("%08d".toList) [Arg.anum (UINT64 - 42)] = some ("-0000042".toList)
    ∧ printk ("%8d".toList) [Arg.anum (UINT64 - 42)] = some ("     -42".toList) := by
  refine ⟨?_, by decide, by decide⟩
  intro num spec h
  have hneg : decide (num < 0) = true := by simpa using h
  cases hpz : spec.pad_with_zeros <;>
    simp [print_number, hneg, hpz]

/-- C1 witness: the padding-order statement applied to `-42` with width 8,
in both padding modes. -/
theorem claim_C1_witness :
    print_number (-42) { pad_with_zeros := true, width := 8 } = ("-0000042".toList)
    ∧ print_number (-42) { width := 8 } = ("     -42".toList) := by
  constructor
  · have h := claim_C1.1 (-42) { pad_with_zeros := true, width := 8 } (by decide)
    rw [h]
    decide
  · have h := claim_C1.1 (-42) { width := 8 } (by decide)
    rw [h]
    decide

/-- C3: a `%p` directive prints exactly `(nil)` for a null pointer, and
otherwise `0x` followed by exactly 16 lowercase hexadecimal digits
denoting the pointer value, zero-padded, whatever width or flags were
parsed. -/
theorem claim_C3 :
    ∀ (spec : FormatSpec) (args : List Arg) (v : Nat), spec.type = 'p' →
      (asULong v = 0 →
        dispatch spec (Arg.anum v :: args) = some (['(', 'n', 'i', 'l', ')'], args))
      ∧ (asULong v ≠ 0 →
          dispatch spec (Arg.anum v :: args) =
            some ('0' :: 'x' :: print_hex (asULong v) false
              { spec with width := 16, pad_with_zeros := true }, args)
          ∧ (print_hex (asULong v) false
              { spec with width := 16, pad_with_zeros := true }).length = 16
          ∧ (∀ c ∈ print_hex (asULong v) false
              { spec with width := 16, pad_with_zeros := true }, c ∈ hexLowerChars)
          ∧ hexListVal (print_hex (asULong v) false
              { spec with width := 16, pad_with_zeros := true }) = asULong v) := by
  intro spec args v htype
  constructor
  · intro h0
    simp [dispatch, htype, h0]
  · intro hne
    have h64 : asULong v < UINT64 := by unfold asULong UINT64; omega
    have hps := print_hex_forced16 (asULong v) hne h64
      { spec with width := 16, pad_with_zeros := true } rfl rfl
    exact ⟨by simp [dispatch, htype, hne], hps.1, hps.2.1, hps.2.2⟩

/-- C3 witness: `%p` on the null pointer and on the concrete address
`0x40001000`, through the general statement. -/
theorem claim_C3_witness :
    dispatch { type := 'p' } [Arg.anum 0] = some (['(', 'n', 'i', 'l', ')'], [])
    ∧ dispatch { type := 'p', width := 3 } [Arg.anum 1073745920] =
        some ('0' :: 'x' :: ("0000000040001000".toList), []) := by
  constructor
  · exact (claim_C3 { type := 'p' } [] 0 rfl).1 (by decide)
  · have h := (claim_C3 { type := 'p', width := 3 } [] 1073745920 rfl).2 (by decide)
    rw [h.1]
    decide

/-! ## Evaluation lemmas for the printk calls made by hex_dump -/

/-- Output of the row-prefix call `printk("0x%x:    ", row_addr)`: the row
address is consumed by `%x` as an `unsigned int`, hence reduced mod `2^32`. -/
theorem printk_row_prefix (v : Nat) :
    printk ['0', 'x', '%', 'x', ':', ' ', ' ', ' ', ' '] [Arg.anum v] =
      some ('0' :: 'x' :: (print_hex (asUInt v) false { type := 'x' } ++
        (':' :: ' ' :: ' ' :: ' ' :: ' ' :: []))) := rfl

/-- Output of `printk(".. ")`. -/
theorem printk_dots3 : printk ['.', '.', ' '] [] = some ['.', '.', ' '] := rfl

/-- Output of `printk("0")`. -/
theorem printk_zero : printk ['0'] [] = some ['0'] := rfl

/-- Output of `printk("%x ", byte)`. -/
theorem printk_hex_sp (v : Nat) :
    printk ['%', 'x', ' '] [Arg.anum v] =
      some (print_hex (asUInt v) false { type := 'x' } ++ [' ']) := rfl

/-- Output of `printk(".")`. -/
theorem printk_dot : printk ['.'] [] = some ['.'] := rfl

/-- Output of `printk("%c", byte)`. -/
theorem printk_chr (v : Nat) :
    printk ['%', 'c'] [Arg.anum v] = some [Char.ofNat (v % 256)] := rfl

/-- Output of `printk("   ")`. -/
theorem printk_gap3 : printk [' ', ' ', ' '] [] = some [' ', ' ', ' '] := rfl

/-- Output of `printk("\n")`. -/
theorem printk_nl : printk ['\n'] [] = some ['\n'] := rfl

/-- A hex cell of a one-byte dump whose end address does not wrap: the
two-digit value at the start address, `".. "` everywhere else in the row. -/
theorem hexCell_len1 (memb : Nat → Nat) (addr byteAddr : Nat) (haddr : addr + 1 < UINT64) :
    hexCell memb addr 1 byteAddr =
      some (if byteAddr = addr then
        (if memb addr % 256 < 16 then ['0'] else []) ++
          (print_hex (memb addr % 256) false { type := 'x' } ++ [' '])
      else ['.', '.', ' ']) := by
  rcases eq_or_ne byteAddr addr with rfl | hne
  · have hc : ¬ (byteAddr < byteAddr ∨ (byteAddr + 1) % UINT64 ≤ byteAddr) := by
      simp only [UINT64] at haddr ⊢
      omega
    have hau : asUInt (memb byteAddr % 256) = memb byteAddr % 256 := by
      unfold asUInt UINT32; omega
    unfold hexCell
    rw [if_neg hc]
    by_cases hb : memb byteAddr % 256 < 16 <;>
      simp [hb, printk_zero, printk_hex_sp, hau]
  · have hc : byteAddr < addr ∨ (addr + 1) % UINT64 ≤ byteAddr := by
      simp only [UINT64] at haddr ⊢
      omega
    unfold hexCell
    rw [if_pos hc]
    simp [hne, printk_dots3]

/-- An ASCII cell of a one-byte dump whose end address does not wrap: the
byte's glyph (or `.`) at the start address, `.` everywhere else in the row. -/
theorem asciiCell_len1 (memb : Nat → Nat) (addr byteAddr : Nat) (haddr : addr + 1 < UINT64) :
    asciiCell memb addr 1 byteAddr =
      some (if byteAddr = addr then
        (if 31 < memb addr % 256 ∧ memb addr % 256 < 127
         then [Char.ofNat (memb addr % 256)] else ['.'])
      else ['.']) := by
  rcases eq_or_ne byteAddr addr with rfl | hne
  · have hc : ¬ (byteAddr < byteAddr ∨ (byteAddr + 1) % UINT64 ≤ byteAddr) := by
      simp only [UINT64] at haddr ⊢
      omega
    have hmm : memb byteAddr % 256 % 256 = memb byteAddr % 256 := by omega
    unfold asciiCell
    rw [if_neg hc]
    by_cases hb : 31 < memb byteAddr % 256 ∧ memb byteAddr % 256 < 127 <;>
      simp [hb, printk_chr, printk_dot, hmm]
  · have hc : byteAddr < addr ∨ (addr + 1) % UINT64 ≤ byteAddr := by
      simp only [UINT64] at haddr ⊢
      omega
    unfold asciiCell
    rw [if_pos hc]
    simp [hne, printk_dot]

/-- Evaluation of the 16-column cell loop when every cell succeeds. -/
theorem cellLoop_eval (cell : Nat → Option (List Char)) (g : Nat → List Char)
    (hcell : ∀ x, cell x = some (g x)) (rowAddr : Nat) :
    ∀ (remaining col : Nat),
      cellLoop cell rowAddr col remaining =
        some (((List.range' col remaining).map fun i => g (rowAddr + i)).flatten) := by
  intro remaining
  induction remaining with
  | zero => intro col; simp [cellLoop]
  | succ r ih =>
    intro col
    simp [cellLoop, hcell, ih (col + 1), List.range'_succ]

/-- A full row of a one-byte dump whose end address does not wrap, for an
arbitrary row address. -/
theorem hexRow_len1 (memb : Nat → Nat) (addr rowAddr : Nat) (haddr : addr + 1 < UINT64) :
    hexRow memb addr 1 rowAddr =
      some (('0' :: 'x' :: (print_hex (asUInt rowAddr) false { type := 'x' } ++
          (':' :: ' ' :: ' ' :: ' ' :: ' ' :: [])))
        ++ ((((List.range' 0 16).map fun i =>
            if rowAddr + i = addr then
              (if memb addr % 256 < 16 then ['0'] else []) ++
                (print_hex (memb addr % 256) false { type := 'x' } ++ [' '])
            else ['.', '.', ' ']).flatten)
        ++ ([' ', ' ', ' '] ++ ((((List.range' 0 16).map fun i =>
            if rowAddr + i = addr then
              (if 31 < memb addr % 256 ∧ memb addr % 256 < 127
               then [Char.ofNat (memb addr % 256)] else ['.'])
            else ['.']).flatten)
        ++ ['\n'])))) := by
  have hhex := cellLoop_eval (hexCell memb addr 1) _
    (fun x => hexCell_len1 memb addr x haddr) rowAddr 16 0
  have hasc := cellLoop_eval (asciiCell memb addr 1) _
    (fun x => asciiCell_len1 memb addr x haddr) rowAddr 16 0
  simp [hexRow, printk_row_prefix, printk_gap3, printk_nl, hhex, hasc]

/-- C4 counterexample, two failing inputs for the claim as stated.  At the
1-byte region starting at address `2^32 + 1` (not 16-aligned), the dump's
single row does not begin with the hexadecimal rendering of the aligned
start address `2^32`: the row address is consumed by `%x` as a 32-bit
value and prints as `0`.  And at the 1-byte region starting at the
non-aligned address `2^64 - 1`, the sum `start + length` wraps to `0` in
the `unsigned long` loop guard, so no row at all is produced. -/
theorem claim_C4_counterexample :
    (4294967297 : Nat) % 16 ≠ 0
    ∧ hex_dump (fun _ => 0) 4294967297 1 =
        some (("0x0:    .. 00 .. .. .. .. .. .. .. .. .. .. .. .. .. ..    ................\n").toList)
    ∧ 4294967297 / 16 * 16 = 4294967296
    ∧ (hex_dump (fun _ => 0) 4294967297 1).map
        (fun out => out.take
          ('0' :: 'x' :: print_hex (4294967297 / 16 * 16) false { type := 'x' } ++ [':']).length)
      ≠ some ('0' :: 'x' :: print_hex (4294967297 / 16 * 16) false { type := 'x' } ++ [':'])
    ∧ (UINT64 - 1) % 16 ≠ 0
    ∧ hex_dump (fun _ => 0) (UINT64 - 1) 1 = some [] := by
  refine ⟨by decide, by decide, by decide, by decide, by decide, by decide⟩

/-- C4 (amended): dumping a 1-byte region at a non-16-aligned start
address below `2^64 - 16` (so that neither `start + length` nor the next
row address wraps modulo `2^64`) yields exactly one row; every column
before the start address and every column at or after `start + 1` renders
as `..` in the hex half and `.` in the ASCII half; and the row prefix is
the start address rounded down to a multiple of 16, reduced modulo `2^32`
(the row address is passed to `%x`, which consumes it as an
`unsigned int`). -/
theorem claim_C4 :
    ∀ (memb : Nat → Nat) (addr : Nat), addr % 16 ≠ 0 → addr + 16 ≤ UINT64 →
      hex_dump memb addr 1 =
        some (('0' :: 'x' :: (print_hex (asUInt (addr / 16 * 16)) false { type := 'x' } ++
            (':' :: ' ' :: ' ' :: ' ' :: ' ' :: [])))
          ++ ((((List.range 16).map fun i =>
              if addr / 16 * 16 + i = addr then
                (if memb addr % 256 < 16 then ['0'] else []) ++
                  (print_hex (memb addr % 256) false { type := 'x' } ++ [' '])
              else ['.', '.', ' ']).flatten)
          ++ ([' ', ' ', ' '] ++ ((((List.range 16).map fun i =>
              if addr / 16 * 16 + i = addr then
                (if 31 < memb addr % 256 ∧ memb addr % 256 < 127
                 then [Char.ofNat (memb addr % 256)] else ['.'])
              else ['.']).flatten)
          ++ ['\n'])))) := by
  intro memb addr h hbound
  have h1 : addr / 16 * 16 < (addr + 1) % UINT64 := by
    simp only [UINT64] at hbound ⊢
    omega
  have h2 : ¬ ((addr / 16 * 16 + 16) % UINT64 < (addr + 1) % UINT64) := by
    simp only [UINT64] at hbound ⊢
    omega
  have haddr : addr + 1 < UINT64 := by
    simp only [UINT64] at hbound ⊢
    omega
  have step1 : hex_dump memb addr 1 =
      if addr / 16 * 16 < (addr + 1) % UINT64 then (do
        let row ← hexRow memb addr 1 (addr / 16 * 16)
        let rest ← hexDumpLoop memb addr 1 16 ((addr / 16 * 16 + 16) % UINT64)
        pure (row ++ rest))
      else some [] := rfl
  have step2 : hexDumpLoop memb addr 1 16 ((addr / 16 * 16 + 16) % UINT64) =
      if (addr / 16 * 16 + 16) % UINT64 < (addr + 1) % UINT64 then (do
        let row ← hexRow memb addr 1 ((addr / 16 * 16 + 16) % UINT64)
        let rest ← hexDumpLoop memb addr 1 15 (((addr / 16 * 16 + 16) % UINT64 + 16) % UINT64)
        pure (row ++ rest))
      else some [] := rfl
  rw [step1, if_pos h1, step2, if_neg h2]
  rw [hexRow_len1 memb addr (addr / 16 * 16) haddr]
  simp [List.range_eq_range']

/-- C4 witness: the amended row statement applied to a concrete memory and
the concrete unaligned address 5. -/
theorem claim_C4_witness :
    hex_dump (fun _ => 65) 5 1 =
      some (("0x0:    .. .. .. .. .. 41 .. .. .. .. .. .. .. .. .. ..    .....A..........\n").toList) := by
  have h := claim_C4 (fun _ => 65) 5 (by decide) (by decide)
  rw [h]
  decide
